import Mathlib

/-!
Shallow embedding of the ktmpl template-processing engine (InQuicker/ktmpl).

The YAML node model (`Yaml`) mirrors the external yaml-rust document model that
the engine consumes through a minimal node-tree interface; hashes are modelled
as insertion-ordered association lists (yaml-rust's `LinkedHashMap`), and the
std `HashMap`s used for parameter maps are modelled as association lists with
lookup by key (only `get`, `insert` and `extend` are used by the engine).
-/

namespace Ktmpl

/-- The yaml-rust `Yaml` node type: scalars, ordered sequence, ordered mapping,
alias, null and the `BadValue` returned by failed indexing. `real` carries the
raw string form, as in yaml-rust. -/
inductive Yaml where
  | real (s : String)
  | integer (n : Int)
  | string (s : String)
  | boolean (b : Bool)
  | array (l : List Yaml)
  | hash (l : List (Yaml × Yaml))
  | alias (n : Nat)
  | null
  | badValue
  deriving Repr, Inhabited

namespace Yaml

/-- yaml-rust `Yaml::as_str`. -/
def as_str : Yaml → Option String
  | .string s => some s
  | _ => none

/-- yaml-rust `Yaml::as_bool`. -/
def as_bool : Yaml → Option Bool
  | .boolean b => some b
  | _ => none

/-- yaml-rust `Yaml::as_vec`. -/
def as_vec : Yaml → Option (List Yaml)
  | .array l => some l
  | _ => none

end Yaml

/-- Whether a hash key equals the string-typed key `k` (all key lookups the
engine performs use `Yaml::String` keys). -/
def keyIs (k : String) : Yaml → Bool
  | .string s => s = k
  | _ => false

/-- Lookup of the string key `k` in a yaml-rust `Hash` (ordered map): value of
the first entry whose key is `Yaml::String(k)`. -/
def yGet (h : List (Yaml × Yaml)) (k : String) : Option Yaml :=
  (h.find? (fun kv => keyIs k kv.1)).map (·.2)

/-- In-place update of the value stored at string key `k` (yaml-rust `get_mut`
then assignment): replaces the value of the first entry with key `k`. -/
def ySet : List (Yaml × Yaml) → String → Yaml → List (Yaml × Yaml)
  | [], _, _ => []
  | (k', v') :: t, k, v =>
    if keyIs k k' then (k', v) :: t else (k', v') :: ySet t k v

/-- yaml-rust's `Index<&str> for Yaml`: looks the string key up in a hash node,
yielding `BadValue` when the node is not a hash or the key is absent. -/
def yIndexS (y : Yaml) (k : String) : Yaml :=
  match y with
  | .hash h => (yGet h k).getD .badValue
  | _ => .badValue

/-- `src/parameter.rs`: the `ParameterType` enum. -/
inductive ParameterType where
  | base64
  | bool
  | int
  | string
  deriving Repr, DecidableEq

/-- `src/parameter.rs`: a user-supplied value, plain text or Base64-encoded. -/
inductive ParameterValue where
  | plain (s : String)
  | encoded (s : String)
  deriving Repr, DecidableEq

/-- `src/parameter.rs`: the `Parameter` struct. -/
structure Parameter where
  description : Option String
  display_name : Option String
  name : String
  parameter_type : Option ParameterType
  required : Bool
  value : Option String
  deriving Repr, DecidableEq

/-- `ParamMap = HashMap<String, Parameter>`, modelled as an association list
(the engine only performs keyed lookup on it). -/
abbrev ParamMap := List (String × Parameter)

/-- `ParameterValues = HashMap<String, ParameterValue>`, modelled as an
association list with `HashMap`-style keyed insert. -/
abbrev ParameterValues := List (String × ParameterValue)

/-- `HashMap::get` on the parameter map. -/
def pmGet (pm : ParamMap) (k : String) : Option Parameter :=
  (pm.find? (fun kv => kv.1 = k)).map (·.2)

/-- `HashMap::get` on supplied parameter values. -/
def pvGet (pv : ParameterValues) (k : String) : Option ParameterValue :=
  (pv.find? (fun kv => kv.1 = k)).map (·.2)

/-- `HashMap::insert`: overwrite the value at the key if present, else add the
entry. -/
def pvInsert : ParameterValues → String → ParameterValue → ParameterValues
  | [], k, v => [(k, v)]
  | (k', v') :: t, k, v =>
    if k' = k then (k', v) :: t else (k', v') :: pvInsert t k v

/-- `HashMap::extend`: insert every entry of `other`, in order. -/
def pvExtend (pv other : ParameterValues) : ParameterValues :=
  other.foldl (fun acc kv => pvInsert acc kv.1 kv.2) pv

/-- `HashMap::insert` on the parameter map. -/
def pmInsert : ParamMap → String → Parameter → ParamMap
  | [], k, v => [(k, v)]
  | (k', v') :: t, k, v =>
    if k' = k then (k', v) :: t else (k', v') :: pmInsert t k v

/-- `src/secret.rs`: a Kubernetes secret identity. -/
structure Secret where
  name : String
  namespc : String
  deriving Repr, DecidableEq

/-- UTF-8 byte encoding of a character (`str::as_bytes` acts on the UTF-8
encoding of the string). -/
def utf8Bytes (c : Char) : List Nat :=
  let n := c.toNat
  if n < 128 then [n]
  else if n < 2048 then [192 + n / 64, 128 + n % 64]
  else if n < 65536 then [224 + n / 4096, 128 + (n / 64) % 64, 128 + n % 64]
  else [240 + n / 262144, 128 + (n / 4096) % 64, 128 + (n / 64) % 64, 128 + n % 64]

/-- The bytes of a string (`str::as_bytes`). -/
def strBytes (s : String) : List Nat :=
  (s.data.map utf8Bytes).flatten

/-- The standard Base64 alphabet used by the `base64` crate's `encode`. -/
def b64alphabet : List Char :=
  "ABCDEFGHIJKLMNOPQRSTUVWXYZabcdefghijklmnopqrstuvwxyz0123456789+/".data

/-- Character at index `k` of the Base64 alphabet. -/
def b64char (k : Nat) : Char :=
  b64alphabet.getD k 'A'

/-- Standard Base64 encoding with padding of a byte sequence (the `base64`
crate's `encode`). -/
def b64encodeBytes : List Nat → List Char
  | [] => []
  | [a] => [b64char (a / 4), b64char (a % 4 * 16), '=', '=']
  | [a, b] => [b64char (a / 4), b64char (a % 4 * 16 + b / 16), b64char (b % 16 * 4), '=']
  | a :: b :: c :: t =>
    b64char (a / 4) :: b64char (a % 4 * 16 + b / 16) ::
      b64char (b % 16 * 4 + c / 64) :: b64char (c % 64) :: b64encodeBytes t

/-- `base64::encode(value.as_bytes())`. -/
def base64_encode (s : String) : String :=
  ⟨b64encodeBytes (strBytes s)⟩

/-- `src/parameter.rs` `maybe_base64_encode`: Base64-encode a supplied `Plain`
value when the declared type is `Base64`; otherwise pass the raw string
through unchanged. -/
def maybe_base64_encode (parameter_type : Option ParameterType)
    (user_value : ParameterValue) : String :=
  if parameter_type = none ∨ parameter_type ≠ some ParameterType.base64 then
    match user_value with
    | .plain v => v
    | .encoded v => v
  else
    match user_value with
    | .plain v => base64_encode v
    | .encoded v => v

/-- Decimal value of a digit character. -/
def digitVal (c : Char) : Nat := c.toNat - 48

/-- Value of a list of decimal digit characters. -/
def natOfDigits (l : List Char) : Nat :=
  l.foldl (fun a c => a * 10 + digitVal c) 0

/-- Rust `i64::from_str`: optional sign, one or more decimal digits, value
within the 64-bit signed range. -/
def parseI64 (s : String) : Option Int :=
  let p : Int × List Char :=
    match s.data with
    | '+' :: t => (1, t)
    | '-' :: t => (-1, t)
    | t => (1, t)
  if p.2 = [] ∨ ¬ p.2.all (·.isDigit) then none
  else
    let v : Int := p.1 * (natOfDigits p.2 : Int)
    if -(2 ^ 63) ≤ v ∧ v ≤ 2 ^ 63 - 1 then some v else none

/-- Value of a character as a digit in a given radix, if it is one. -/
def radixDigitVal (radix : Nat) (c : Char) : Option Nat :=
  let v :=
    if c.isDigit then some (c.toNat - 48)
    else if 'a' ≤ c ∧ c ≤ 'z' then some (c.toNat - 97 + 10)
    else if 'A' ≤ c ∧ c ≤ 'Z' then some (c.toNat - 65 + 10)
    else none
  match v with
  | some n => if n < radix then some n else none
  | none => none

/-- Rust `i64::from_str_radix`: optional sign, one or more digits in the given
radix, value within the 64-bit signed range. -/
def parseI64Radix (radix : Nat) (s : String) : Option Int :=
  let p : Int × List Char :=
    match s.data with
    | '+' :: t => (1, t)
    | '-' :: t => (-1, t)
    | t => (1, t)
  if p.2 = [] ∨ ¬ p.2.all (fun c => (radixDigitVal radix c).isSome) then none
  else
    let n := p.2.foldl (fun a c => a * radix + (radixDigitVal radix c).getD 0) 0
    let v : Int := p.1 * (n : Int)
    if -(2 ^ 63) ≤ v ∧ v ≤ 2 ^ 63 - 1 then some v else none

/-- Exponent part of the Rust float grammar: optional sign then one or more
digits (the leading `e` has already been consumed). -/
def f64ExpDigits (l : List Char) : Bool :=
  let t :=
    match l with
    | '+' :: t => t
    | '-' :: t => t
    | t => t
  t ≠ [] ∧ t.all (·.isDigit)

/-- Rest of the Rust float grammar after the integral digits: nothing, a
fraction part, or an exponent part (input already lowercased). -/
def f64Rest (ip : List Char) (r : List Char) : Bool :=
  match r with
  | [] => ip ≠ []
  | '.' :: r2 =>
    let q := r2.span (·.isDigit)
    decide (ip ≠ [] ∨ q.1 ≠ []) &&
      (match q.2 with
       | [] => true
       | 'e' :: r3 => f64ExpDigits r3
       | _ => false)
  | 'e' :: r3 => decide (ip ≠ []) && f64ExpDigits r3
  | _ => false

/-- Whether a string is accepted by Rust's `f64::from_str` (used only to decide
the `Real` arm of the node model's scalar-type inference). -/
def parsesAsF64 (s : String) : Bool :=
  let cs := s.data.map Char.toLower
  let t :=
    match cs with
    | '+' :: t => t
    | '-' :: t => t
    | t => t
  if t = ['i', 'n', 'f'] ∨ t = "infinity".data ∨ t = ['n', 'a', 'n'] then true
  else
    let q := t.span (·.isDigit)
    f64Rest q.1 q.2

/-- Rust `str::starts_with` on the character model. -/
def strStartsWith (s pre : String) : Bool :=
  pre.data.isPrefixOf s.data

/-- yaml-rust `Yaml::from_str`: infer the scalar type of a bare string — hex,
octal and explicitly signed integers, null and boolean literals, decimal
integers, floats (kept in raw string form, as yaml-rust stores reals), else a
plain string. -/
def Yaml.from_str (v : String) : Yaml :=
  if strStartsWith v "0x" ∧ (parseI64Radix 16 (String.mk (v.data.drop 2))).isSome then
    .integer ((parseI64Radix 16 (String.mk (v.data.drop 2))).getD 0)
  else if strStartsWith v "0o" ∧ (parseI64Radix 8 (String.mk (v.data.drop 2))).isSome then
    .integer ((parseI64Radix 8 (String.mk (v.data.drop 2))).getD 0)
  else if strStartsWith v "+" ∧ (parseI64 (String.mk (v.data.drop 1))).isSome then
    .integer ((parseI64 (String.mk (v.data.drop 1))).getD 0)
  else if v = "~" ∨ v = "null" then .null
  else if v = "true" then .boolean true
  else if v = "false" then .boolean false
  else
    match parseI64 v with
    | some n => .integer n
    | none => if parsesAsF64 v then .real v else .string v

/-!
Model of the two interpolation regexes of `src/processor.rs`:

  LITERAL_INTERPOLATION = `\$\({2}(.*)\){2}`
  STRING_INTERPOLATION  = `\$\((.*)\)`

A match attempt at a position succeeds when the text starts with the fixed
prefix (`$((` or `$(`), followed by a greedy capture of characters other than
newline (`.` does not match `\n`), followed by the fixed closing parentheses.
Greediness makes the capture extend to the last closing position on the line;
`replace_all` rewrites the leftmost match and continues after it.
-/

/-- Greedy match of `(.*)` followed by the literal `close` against `l`,
returning the capture and the text remaining after `close`. Greediness is
realised by preferring a split point further right: consume the head into the
capture whenever the tail still matches (and the head is not a newline, which
`.` cannot match), and only match `close` at the current position otherwise. -/
def greedyFind (close : List Char) : List Char → Option (List Char × List Char)
  | [] => none
  | c :: t =>
    match (if c = '\n' then none else greedyFind close t) with
    | some p => some (c :: p.1, p.2)
    | none =>
      if close.isPrefixOf (c :: t) then some ([], (c :: t).drop close.length)
      else none

theorem greedyFind_eq_append (close : List Char) :
    ∀ l cap rest, greedyFind close l = some (cap, rest) →
      l = cap ++ close ++ rest := by
  intro l
  induction l with
  | nil => intro cap rest h; simp [greedyFind] at h
  | cons c t ih =>
    intro cap rest h
    rw [greedyFind] at h
    cases hrec : (if c = '\n' then none else greedyFind close t) with
    | some p =>
      rw [hrec] at h
      obtain ⟨hc, hr⟩ : c :: p.1 = cap ∧ p.2 = rest := by
        simpa using h
      have hgf : greedyFind close t = some p := by
        by_cases hnl : c = '\n' <;> simp [hnl] at hrec
        · exact hrec
      have := ih p.1 p.2 hgf
      rw [← hc, ← hr, this]
      simp
    | none =>
      rw [hrec] at h
      by_cases hpre : close.isPrefixOf (c :: t)
      · simp [hpre] at h
        obtain ⟨hc, hr⟩ := h
        have hp : close <+: c :: t := List.isPrefixOf_iff_prefix.mp hpre
        obtain ⟨s, hs⟩ := hp
        subst hc
        rw [← hr, ← hs, List.drop_left]
        simp
      · simp [hpre] at h

theorem greedyFind_rest_le (close l : List Char) (p : List Char × List Char)
    (h : greedyFind close l = some p) : p.2.length + close.length ≤ l.length := by
  have := greedyFind_eq_append close l p.1 p.2 (by rw [← h])
  have hlen : l.length = p.1.length + close.length + p.2.length := by
    rw [this]; simp; omega
  omega

/-- A match attempt of the literal pattern at the start of the text. Returns
the capture and the text remaining after the match. -/
def litMatchAt (l : List Char) : Option (List Char × List Char) :=
  match l with
  | '$' :: '(' :: '(' :: t => greedyFind [')', ')'] t
  | _ => none

/-- A match attempt of the string pattern at the start of the text. -/
def strMatchAt (l : List Char) : Option (List Char × List Char) :=
  match l with
  | '$' :: '(' :: t => greedyFind [')'] t
  | _ => none

theorem litMatchAt_rest_le (l : List Char) (p : List Char × List Char)
    (h : litMatchAt l = some p) : p.2.length + 3 ≤ l.length := by
  unfold litMatchAt at h
  split at h
  · next t =>
    have := greedyFind_rest_le _ _ _ h
    simp only [List.length_cons, List.length] at *
    omega
  · exact absurd h (by simp)

theorem strMatchAt_rest_le (l : List Char) (p : List Char × List Char)
    (h : strMatchAt l = some p) : p.2.length + 2 ≤ l.length := by
  unfold strMatchAt at h
  split at h
  · next t =>
    have := greedyFind_rest_le _ _ _ h
    simp only [List.length_cons, List.length] at *
    omega
  · exact absurd h (by simp)

/-- The `interpolate` closure of `process_string`: replace a placeholder match
by the parameter's resolved value, by the sentinel `~` when the parameter is
declared but has no value, and by the whole matched text when the name is not
declared. -/
def interpolate (pm : ParamMap) (whole key : String) : String :=
  match pmGet pm key with
  | some parameter => parameter.value.getD "~"
  | none => whole

/-- Fuelled scanning loop of
`LITERAL_INTERPOLATION.replace_all(text, &interpolate)`: rewrite every
(leftmost, non-overlapping) literal-pattern match. A match consumes at least
one character, so fuel equal to the text length always suffices
(`litReplaceAllF_fuel`); the fuel only makes the recursion structural. -/
def litReplaceAllF (pm : ParamMap) : Nat → List Char → List Char
  | _, [] => []
  | 0, l => l
  | fuel + 1, c :: t =>
    match litMatchAt (c :: t) with
    | some p =>
      (interpolate pm (String.mk ('$' :: '(' :: '(' :: (p.1 ++ [')', ')'])))
          (String.mk p.1)).data ++ litReplaceAllF pm fuel p.2
    | none => c :: litReplaceAllF pm fuel t

/-- `LITERAL_INTERPOLATION.replace_all(text, &interpolate)`. -/
def litReplaceAll (pm : ParamMap) (l : List Char) : List Char :=
  litReplaceAllF pm l.length l

/-- Fuelled scanning loop of
`STRING_INTERPOLATION.replace_all(text, &interpolate)`. -/
def strReplaceAllF (pm : ParamMap) : Nat → List Char → List Char
  | _, [] => []
  | 0, l => l
  | fuel + 1, c :: t =>
    match strMatchAt (c :: t) with
    | some p =>
      (interpolate pm (String.mk ('$' :: '(' :: (p.1 ++ [')'])))
          (String.mk p.1)).data ++ strReplaceAllF pm fuel p.2
    | none => c :: strReplaceAllF pm fuel t

/-- `STRING_INTERPOLATION.replace_all(text, &interpolate)`. -/
def strReplaceAll (pm : ParamMap) (l : List Char) : List Char :=
  strReplaceAllF pm l.length l

/-- Any fuel at least the text length computes the same result as fuel equal
to the text length: the fuel is not semantically relevant. -/
theorem litReplaceAllF_fuel (pm : ParamMap) :
    ∀ fuel l, l.length ≤ fuel → litReplaceAllF pm fuel l = litReplaceAll pm l := by
  intro fuel
  induction fuel using Nat.strong_induction_on with
  | _ fuel ih =>
    intro l hl
    cases l with
    | nil => cases fuel <;> rfl
    | cons c t =>
      cases fuel with
      | zero => simp at hl
      | succ fuel =>
        rw [litReplaceAllF]
        unfold litReplaceAll
        rw [show (c :: t).length = t.length + 1 from rfl, litReplaceAllF]
        simp only [List.length_cons] at hl
        cases hm : litMatchAt (c :: t) with
        | some p =>
          have hrest := litMatchAt_rest_le (c :: t) p hm
          simp only [List.length_cons] at hrest
          dsimp only
          rw [ih fuel (by omega) p.2 (by omega),
            ih t.length (by omega) p.2 (by omega)]
        | none =>
          dsimp only
          rw [ih fuel (by omega) t (by omega),
            ih t.length (by omega) t (by omega)]

/-- Any fuel at least the text length computes the same result as fuel equal
to the text length. -/
theorem strReplaceAllF_fuel (pm : ParamMap) :
    ∀ fuel l, l.length ≤ fuel → strReplaceAllF pm fuel l = strReplaceAll pm l := by
  intro fuel
  induction fuel using Nat.strong_induction_on with
  | _ fuel ih =>
    intro l hl
    cases l with
    | nil => cases fuel <;> rfl
    | cons c t =>
      cases fuel with
      | zero => simp at hl
      | succ fuel =>
        rw [strReplaceAllF]
        unfold strReplaceAll
        rw [show (c :: t).length = t.length + 1 from rfl, strReplaceAllF]
        simp only [List.length_cons] at hl
        cases hm : strMatchAt (c :: t) with
        | some p =>
          have hrest := strMatchAt_rest_le (c :: t) p hm
          simp only [List.length_cons] at hrest
          dsimp only
          rw [ih fuel (by omega) p.2 (by omega),
            ih t.length (by omega) p.2 (by omega)]
        | none =>
          dsimp only
          rw [ih fuel (by omega) t (by omega),
            ih t.length (by omega) t (by omega)]

/-- `src/processor.rs` `process_string`: run the literal pattern over the whole
text, then the string pattern over the result; keep the node when neither pass
changed the text, re-parse the text as a typed scalar when only the literal
pass changed it, and build a string node otherwise. -/
def process_string (pm : ParamMap) (s : String) : Except String (Option Yaml) :=
  let replacement := litReplaceAll pm s.data
  let final := strReplaceAll pm replacement
  if replacement = s.data then
    if final = replacement then Except.ok none
    else Except.ok (some (.string (String.mk final)))
  else
    if final = replacement then Except.ok (some (Yaml.from_str (String.mk final)))
    else Except.ok (some (.string (String.mk final)))

/-!
`src/processor.rs` `process_yaml` / `process_array` / `process_hash`.

Each function takes the node by `&mut`, possibly rewriting descendants in
place, and returns `Ok(Some(new))` when the caller must replace the whole
node, `Ok(None)` otherwise. The embedding returns the post-mutation node
paired with that result; note that `process_string` never writes through its
`&mut` argument, so a string node is never mutated in place, only replaced by
its parent (or not at all when it is the root).
-/

mutual

/-- `process_yaml`: dispatch on the node kind; scalars other than strings are
left untouched. -/
def process_yaml (pm : ParamMap) : Yaml → Yaml × Except String (Option Yaml)
  | .array l =>
    let p := process_array pm l
    (.array p.1, p.2)
  | .hash l =>
    let p := process_hash pm l
    (.hash p.1, p.2)
  | .string s => (.string s, process_string pm s)
  | y => (y, Except.ok none)

/-- `process_array`: process each element, replacing it in place when a new
node is returned; the first error aborts the loop. -/
def process_array (pm : ParamMap) :
    List Yaml → List Yaml × Except String (Option Yaml)
  | [] => ([], Except.ok none)
  | y :: t =>
    let p := process_yaml pm y
    match p.2 with
    | Except.error e => (p.1 :: t, Except.error e)
    | Except.ok (some ny) =>
      let q := process_array pm t
      (ny :: q.1, q.2)
    | Except.ok none =>
      let q := process_array pm t
      (p.1 :: q.1, q.2)

/-- `process_hash`: process each value (keys are not interpolated), replacing
it in place when a new node is returned; the first error aborts the loop. -/
def process_hash (pm : ParamMap) :
    List (Yaml × Yaml) → List (Yaml × Yaml) × Except String (Option Yaml)
  | [] => ([], Except.ok none)
  | (k, v) :: t =>
    let p := process_yaml pm v
    match p.2 with
    | Except.error e => ((k, p.1) :: t, Except.error e)
    | Except.ok (some nv) =>
      let q := process_hash pm t
      ((k, nv) :: q.1, q.2)
    | Except.ok none =>
      let q := process_hash pm t
      ((k, p.1) :: q.1, q.2)

end

/-- `src/parameter.rs` `ParameterType::from_str` (`FromStr` impl). -/
def parameterTypeFromStr (s : String) : Except String ParameterType :=
  match s with
  | "base64" => Except.ok ParameterType.base64
  | "bool" => Except.ok ParameterType.bool
  | "int" => Except.ok ParameterType.int
  | "string" => Except.ok ParameterType.string
  | _ => Except.error "parameterType must be base64, bool, int, or string."

/-- Extraction of the optional `parameterType` field in `Parameter::new`:
absent (or non-string) means no declared type, a string must parse as a
`ParameterType`. -/
def extract_parameter_type (y : Yaml) : Except String (Option ParameterType) :=
  match (yIndexS y "parameterType").as_str with
  | some s => (parameterTypeFromStr s).map some
  | none => Except.ok none

/-- The optional `displayName` field (non-string treated as absent). -/
def displayNameOf (y : Yaml) : Option String :=
  match yIndexS y "displayName" with
  | .string d => some d
  | _ => none

/-- The `required` field, defaulting to `false` when absent or non-boolean. -/
def requiredOf (y : Yaml) : Bool :=
  (yIndexS y "required").as_bool.getD false

/-- The inline `value` default of a declaration: a boolean, integer or string
`value` field formatted as text; any other node shape counts as no default. -/
def inline_value (y : Yaml) : Option String :=
  match yIndexS y "value" with
  | .boolean b => some (toString b)
  | .integer i => some (toString i)
  | .string s => some s
  | _ => none

/-- The phrase naming the expected type in the required-parameter error. -/
def typePhrase : Option ParameterType → String
  | some ParameterType.base64 => "base64"
  | some ParameterType.bool => "a bool"
  | some ParameterType.int => "an int"
  | some ParameterType.string => "a string"
  | none => "base64, bool, int, or string"

/-- `src/parameter.rs` `Parameter::new`: build one parameter from its
declaration node and the caller-supplied values, resolving the value from the
supplied value, the inline default, or failing when required. -/
def Parameter.new (y : Yaml) (user_values : ParameterValues) :
    Except String Parameter :=
  let description :=
    match yIndexS y "description" with
    | .string d => some d
    | _ => none
  let display_name := displayNameOf y
  match yIndexS y "name" with
  | .string name =>
    match extract_parameter_type y with
    | Except.error e => Except.error e
    | Except.ok parameter_type =>
      let required := requiredOf y
      match pvGet user_values name with
      | some user_value =>
        Except.ok ⟨description, display_name, name, parameter_type, required,
          some (maybe_base64_encode parameter_type user_value)⟩
      | none =>
        match inline_value y with
        | some v =>
          Except.ok ⟨description, display_name, name, parameter_type, required,
            some v⟩
        | none =>
          if required then
            Except.error ("Parameter " ++ (display_name.getD name) ++
              " required and must be " ++ typePhrase parameter_type)
          else
            Except.ok ⟨description, display_name, name, parameter_type,
              required, none⟩
  | _ => Except.error "Parameters must have a \"name\" field."

/-- `src/template.rs`: the `Template` struct. The parsed `objects`, the built
parameter map and the optional secret set (a `HashSet`, modelled as a list;
only `contains` and `len` are used on it). -/
structure Template where
  objects : List Yaml
  param_map : ParamMap
  secrets : Option (List Secret)

/-- The parameter-building loop of `Template::new`: construct each declared
parameter in document order, aborting on the first failure, inserting each
into the map keyed by its name. -/
def build_param_map (uv : ParameterValues) :
    List Yaml → ParamMap → Except String ParamMap
  | [], acc => Except.ok acc
  | spec :: t, acc =>
    match Parameter.new spec uv with
    | Except.error e => Except.error e
    | Except.ok p => build_param_map uv t (pmInsert acc p.name p)

/-- `src/template.rs` `Template::new`, taking the externally parsed document
list (the YAML text parser is an external collaborator): exactly one document,
with `objects` and `parameters` keys that are sequences. -/
def Template.new (docs : List Yaml) (parameter_values : ParameterValues)
    (secrets : Option (List Secret)) : Except String Template :=
  match docs with
  | [doc] =>
    match (yIndexS doc "objects").as_vec with
    | none => Except.error "Key \"objects\" must be present and must be an array."
    | some objects =>
      match (yIndexS doc "parameters").as_vec with
      | none => Except.error "Key \"parameters\" must be present and must be an array."
      | some parameter_specs =>
        (build_param_map parameter_values parameter_specs []).map
          (fun pm => ⟨objects, pm, secrets⟩)
  | _ => Except.error "Only one YAML document can be present in the template."

/-- `src/template.rs` `base64_encode_secret_data`: Base64-encode every value
of the data hash in place; a non-string value is an error (values before it
have already been rewritten). -/
def base64_encode_secret_data :
    List (Yaml × Yaml) → List (Yaml × Yaml) × Except String Unit
  | [] => ([], Except.ok ())
  | (k, .string s) :: t =>
    let q := base64_encode_secret_data t
    ((k, .string (base64_encode s)) :: q.1, q.2)
  | (k, v) :: t =>
    ((k, v) :: t, Except.error "Encountered non-string secret data value.")

/-- `src/template.rs` `maybe_base64_encode_secret`: when the object is a
`Secret` resource whose `{name, namespace}` identity (namespace defaulting to
`"default"`) is in the configured set and it has a `data` hash, encode that
hash in place and report `true`; malformed shapes are errors. -/
def maybe_base64_encode_secret (secrets : List Secret) (object : Yaml) :
    Yaml × Except String Bool :=
  match object with
  | .hash h =>
    match yGet h "kind" with
    | some (.string kind_string) =>
      if kind_string ≠ "Secret" then (.hash h, Except.ok false)
      else
        match yGet h "metadata" with
        | some (.hash metadata) =>
          (match yGet metadata "name" with
           | some (.string name) =>
             (match yGet metadata "namespace" with
              | some (.string namespc) => processMatched h name namespc secrets
              | some _ =>
                (.hash h, Except.error
                  "Encountered a resource with a non-string \"metadata.namespace\" field.")
              | none => processMatched h name "default" secrets)
           | some _ =>
             (.hash h, Except.error
               "Encountered a resource with a non-string \"metadata.name\" field.")
           | none =>
             (.hash h, Except.error
               "Encountered a resource without a \"metadata.name\" field."))
        | some _ =>
          (.hash h, Except.error
            "Encountered a resource with a non-hash \"metadata\" field.")
        | none =>
          (.hash h, Except.error
            "Encountered a resource without a \"metadata\" field.")
    | some _ =>
      (.hash h, Except.error
        "Encountered a resource with a non-string value for the \"kind\" field.")
    | none =>
      (.hash h, Except.error "Encountered a resource without a \"kind\" field.")
  | y => (y, Except.ok false)
where
  /-- The tail of `maybe_base64_encode_secret` once the identity is known:
  encode the `data` hash when the identity is configured and `data` exists. -/
  processMatched (h : List (Yaml × Yaml)) (name namespc : String)
      (secrets : List Secret) : Yaml × Except String Bool :=
    if secrets.contains ⟨name, namespc⟩ then
      match yGet h "data" with
      | some (.hash data_hash) =>
        let q := base64_encode_secret_data data_hash
        match q.2 with
        | Except.ok _ => (.hash (ySet h "data" (.hash q.1)), Except.ok true)
        | Except.error e => (.hash (ySet h "data" (.hash q.1)), Except.error e)
      | some _ =>
        (.hash h, Except.error "Encountered secret with non-hash \"data\" field.")
      | none => (.hash h, Except.ok false)
    else (.hash h, Except.ok false)

/-- Rust `usize` subtraction with the overflow check: `a - b` is a program
error (panic) when `b > a`, modelled as `none`. -/
def usizeSub (a b : Nat) : Option Nat :=
  if b ≤ a then some (a - b) else none

/-- The emission loop of `dump`: serialize each object through the external
emitter, separating consecutive outputs by a newline (no separator after the
object at index `last`). -/
def dumpLoop (emit : Yaml → Except String String) (last : Nat) :
    Nat → List Yaml → Except String String
  | _, [] => Except.ok ""
  | i, object :: t =>
    match emit object with
    | Except.error e => Except.error e
    | Except.ok s =>
      match dumpLoop emit last (i + 1) t with
      | Except.error e => Except.error e
      | Except.ok rest =>
        Except.ok (s ++ (if i ≠ last then "\n" else "") ++ rest)

/-- `src/template.rs` `dump`, parametrized by the external `YamlEmitter`
(already mapped to its error message): computes `objects.len() - 1` on the
unsigned length — a panic when the list is empty — then emits every object in
order. -/
def dump (emit : Yaml → Except String String) (objects : List Yaml) :
    Option (Except String String) :=
  match usizeSub objects.length 1 with
  | none => none
  | some last => some (dumpLoop emit last 0 objects)

/-- The object loop of `Template::process`: interpolate each object in place
(both the returned replacement node and any error of `process_yaml` are
discarded — the call's result is not inspected), then run the secret encoder
when a secret set is configured, counting the objects whose data was encoded. -/
def processLoop (pm : ParamMap) (secrets : Option (List Secret)) :
    List Yaml → Except String (List Yaml × Nat)
  | [] => Except.ok ([], 0)
  | object :: t =>
    let object1 := (process_yaml pm object).1
    match secrets with
    | some s =>
      let q := maybe_base64_encode_secret s object1
      match q.2 with
      | Except.error e => Except.error e
      | Except.ok b =>
        (processLoop pm secrets t).map
          (fun r => (q.1 :: r.1, r.2 + (if b then 1 else 0)))
    | none =>
      (processLoop pm secrets t).map (fun r => (object1 :: r.1, r.2))

/-- `src/template.rs` `Template::process`, parametrized by the external
emitter: interpolate and encode secrets per object, fail when the number of
encoded secret objects differs from the configured set's size, then serialize.
`none` models a panic. -/
def Template.process (emit : Yaml → Except String String) (t : Template) :
    Option (Except String String) :=
  match processLoop t.param_map t.secrets t.objects with
  | Except.error e => some (Except.error e)
  | Except.ok r =>
    match t.secrets with
    | some secrets =>
      if r.2 ≠ secrets.length then
        some (Except.error "Not all secrets specified were found.")
      else dump emit r.1
    | none => dump emit r.1

/-!
`src/main.rs` `parse_yaml`: loading parameter values from a standalone
parameter file (the `--param-file` CLI path). The document's hash entries are
walked; a nested hash's entries are re-parsed with the joined key
`combined_key + "_" + sub_key`; non-string keys panic (`as_str().unwrap()`),
modelled as `none`.
-/

mutual

/-- `parse_yaml(doc, primary_key)` from `src/main.rs`. -/
def parse_yaml (doc : Yaml) (primary_key : String) : Option ParameterValues :=
  match doc with
  | .hash h => parse_yaml_entries primary_key [] h
  | .string s => some [(primary_key, ParameterValue.plain s)]
  | _ => some []

/-- The entry loop of `parse_yaml` over a hash's entries, accumulating
inserted values in order. -/
def parse_yaml_entries (primary_key : String) (acc : ParameterValues) :
    List (Yaml × Yaml) → Option ParameterValues
  | [] => some acc
  | (key, value) :: t =>
    match key.as_str with
    | none => none
    | some ks =>
      let combined_key := primary_key ++ ks
      match value with
      | .hash hh =>
        match parse_yaml_sub combined_key acc hh with
        | none => none
        | some acc2 => parse_yaml_entries primary_key acc2 t
      | .string s =>
        parse_yaml_entries primary_key
          (pvInsert acc combined_key (ParameterValue.plain s)) t
      | .integer i =>
        parse_yaml_entries primary_key
          (pvInsert acc combined_key (ParameterValue.plain (toString i))) t
      | .real r =>
        parse_yaml_entries primary_key
          (pvInsert acc combined_key (ParameterValue.plain r)) t
      | .boolean b =>
        parse_yaml_entries primary_key
          (pvInsert acc combined_key (ParameterValue.plain (toString b))) t
      | _ => parse_yaml_entries primary_key acc t

/-- The nested-hash loop of `parse_yaml`: each sub-entry is re-parsed as a
document under the `_`-joined key and its values extend the accumulator. -/
def parse_yaml_sub (combined_key : String) (acc : ParameterValues) :
    List (Yaml × Yaml) → Option ParameterValues
  | [] => some acc
  | (key, value) :: t =>
    match key.as_str with
    | none => none
    | some ks =>
      let sub_key := combined_key ++ "_" ++ ks
      match parse_yaml value sub_key with
      | none => none
      | some sub_values => parse_yaml_sub combined_key (pvExtend acc sub_values) t

end

/-! Unfolding and no-match lemmas for the pattern matchers. -/

theorem litMatchAt_ne_dollar (c : Char) (t : List Char) (hc : c ≠ '$') :
    litMatchAt (c :: t) = none := by
  unfold litMatchAt
  split
  · next t' heq => rw [List.cons.injEq] at heq; exact absurd heq.1 hc
  · rfl

theorem litMatchAt_snd_ne (c : Char) (t : List Char) (hc : c ≠ '(') :
    litMatchAt ('$' :: c :: t) = none := by
  unfold litMatchAt
  split
  · next t' heq =>
    simp only [List.cons.injEq] at heq
    exact absurd heq.2.1 hc
  · rfl

theorem litMatchAt_thd_ne (c : Char) (t : List Char) (hc : c ≠ '(') :
    litMatchAt ('$' :: '(' :: c :: t) = none := by
  unfold litMatchAt
  split
  · next t' heq =>
    simp only [List.cons.injEq] at heq
    exact absurd heq.2.2.1 hc
  · rfl

theorem strMatchAt_ne_dollar (c : Char) (t : List Char) (hc : c ≠ '$') :
    strMatchAt (c :: t) = none := by
  unfold strMatchAt
  split
  · next t' heq => rw [List.cons.injEq] at heq; exact absurd heq.1 hc
  · rfl

theorem strMatchAt_snd_ne (c : Char) (t : List Char) (hc : c ≠ '(') :
    strMatchAt ('$' :: c :: t) = none := by
  unfold strMatchAt
  split
  · next t' heq =>
    simp only [List.cons.injEq] at heq
    exact absurd heq.2.1 hc
  · rfl

theorem litReplaceAll_cons_none (pm : ParamMap) (c : Char) (t : List Char)
    (h : litMatchAt (c :: t) = none) :
    litReplaceAll pm (c :: t) = c :: litReplaceAll pm t := by
  unfold litReplaceAll
  rw [show (c :: t).length = t.length + 1 from rfl, litReplaceAllF, h]

theorem litReplaceAll_cons_some (pm : ParamMap) (c : Char) (t cap rest : List Char)
    (h : litMatchAt (c :: t) = some (cap, rest)) :
    litReplaceAll pm (c :: t) =
      (interpolate pm (String.mk ('$' :: '(' :: '(' :: (cap ++ [')', ')'])))
        (String.mk cap)).data ++ litReplaceAll pm rest := by
  have hr : rest.length ≤ t.length := by
    have := litMatchAt_rest_le (c :: t) (cap, rest) h
    simp only [List.length_cons] at this
    omega
  unfold litReplaceAll
  rw [show (c :: t).length = t.length + 1 from rfl, litReplaceAllF, h]
  dsimp only
  rw [litReplaceAllF_fuel pm t.length rest hr]
  rfl

theorem strReplaceAll_cons_none (pm : ParamMap) (c : Char) (t : List Char)
    (h : strMatchAt (c :: t) = none) :
    strReplaceAll pm (c :: t) = c :: strReplaceAll pm t := by
  unfold strReplaceAll
  rw [show (c :: t).length = t.length + 1 from rfl, strReplaceAllF, h]

theorem strReplaceAll_cons_some (pm : ParamMap) (c : Char) (t cap rest : List Char)
    (h : strMatchAt (c :: t) = some (cap, rest)) :
    strReplaceAll pm (c :: t) =
      (interpolate pm (String.mk ('$' :: '(' :: (cap ++ [')'])))
        (String.mk cap)).data ++ strReplaceAll pm rest := by
  have hr : rest.length ≤ t.length := by
    have := strMatchAt_rest_le (c :: t) (cap, rest) h
    simp only [List.length_cons] at this
    omega
  unfold strReplaceAll
  rw [show (c :: t).length = t.length + 1 from rfl, strReplaceAllF, h]
  dsimp only
  rw [strReplaceAllF_fuel pm t.length rest hr]
  rfl

/-- Scanning over a dollar-free segment leaves it untouched (matches of the
literal pattern start with `$`). -/
theorem litReplaceAll_append (pm : ParamMap) (pre rest : List Char)
    (h : ∀ c ∈ pre, c ≠ '$') :
    litReplaceAll pm (pre ++ rest) = pre ++ litReplaceAll pm rest := by
  induction pre with
  | nil => simp
  | cons c p ih =>
    have hc : c ≠ '$' := h c (by simp)
    rw [List.cons_append,
      litReplaceAll_cons_none pm c (p ++ rest) (litMatchAt_ne_dollar c _ hc),
      ih (fun d hd => h d (by simp [hd]))]
    rfl

/-- Scanning over a dollar-free segment leaves it untouched (matches of the
string pattern start with `$`). -/
theorem strReplaceAll_append (pm : ParamMap) (pre rest : List Char)
    (h : ∀ c ∈ pre, c ≠ '$') :
    strReplaceAll pm (pre ++ rest) = pre ++ strReplaceAll pm rest := by
  induction pre with
  | nil => simp
  | cons c p ih =>
    have hc : c ≠ '$' := h c (by simp)
    rw [List.cons_append,
      strReplaceAll_cons_none pm c (p ++ rest) (strMatchAt_ne_dollar c _ hc),
      ih (fun d hd => h d (by simp [hd]))]
    rfl

theorem litReplaceAll_nil (pm : ParamMap) : litReplaceAll pm [] = [] := rfl

theorem strReplaceAll_nil (pm : ParamMap) : strReplaceAll pm [] = [] := rfl

/-- A dollar-free text is left unchanged by the literal pass. -/
theorem litReplaceAll_id (pm : ParamMap) (l : List Char)
    (h : ∀ c ∈ l, c ≠ '$') : litReplaceAll pm l = l := by
  have := litReplaceAll_append pm l [] h
  simpa [litReplaceAll_nil] using this

/-- A dollar-free text is left unchanged by the string pass. -/
theorem strReplaceAll_id (pm : ParamMap) (l : List Char)
    (h : ∀ c ∈ l, c ≠ '$') : strReplaceAll pm l = l := by
  have := strReplaceAll_append pm l [] h
  simpa [strReplaceAll_nil] using this

/-- The greedy capture against a single closing parenthesis: on `m ++ ")"`
with `m` newline-free the capture is all of `m` (the rightmost closing
position). -/
theorem greedyFind_one (m : List Char) (h : ∀ c ∈ m, c ≠ '\n') :
    greedyFind [')'] (m ++ [')']) = some (m, []) := by
  induction m with
  | nil => rfl
  | cons c p ih =>
    have hc : c ≠ '\n' := h c (by simp)
    rw [List.cons_append, greedyFind]
    rw [if_neg hc, ih (fun d hd => h d (by simp [hd]))]

/-- The greedy capture against a double closing parenthesis: on `m ++ "))"`
with `m` newline-free the capture is all of `m`. -/
theorem greedyFind_two (m : List Char) (h : ∀ c ∈ m, c ≠ '\n') :
    greedyFind [')', ')'] (m ++ [')', ')']) = some (m, []) := by
  induction m with
  | nil => rfl
  | cons c p ih =>
    have hc : c ≠ '\n' := h c (by simp)
    rw [List.cons_append, greedyFind]
    rw [if_neg hc, ih (fun d hd => h d (by simp [hd]))]

/-- A parameter name (or other text fragment) that contains none of the
characters the placeholder patterns give meaning to. -/
abbrev goodKey (k : String) : Prop :=
  ∀ c ∈ k.data, c ≠ '$' ∧ c ≠ '(' ∧ c ≠ ')' ∧ c ≠ '\n'

theorem litReplaceAll_lit_placeholder (pm : ParamMap) (k : String)
    (hk : goodKey k) :
    litReplaceAll pm ('$' :: '(' :: '(' :: (k.data ++ [')', ')'])) =
      (interpolate pm ("$((" ++ k ++ "))") k).data := by
  have hm : litMatchAt ('$' :: '(' :: '(' :: (k.data ++ [')', ')'])) =
      some (k.data, []) := by
    show greedyFind [')', ')'] (k.data ++ [')', ')']) = some (k.data, [])
    exact greedyFind_two k.data (fun c hc => (hk c hc).2.2.2)
  rw [litReplaceAll_cons_some pm _ _ _ _ hm, litReplaceAll_nil]
  have h1 : String.mk ('$' :: '(' :: '(' :: (k.data ++ [')', ')'])) =
      "$((" ++ k ++ "))" := by
    have h2 : ("$((" ++ k ++ "))").data = '$' :: '(' :: '(' :: (k.data ++ [')', ')']) := by
      simp [String.data_append]
    rw [← h2]
  rw [h1]
  simp

theorem strReplaceAll_str_placeholder (pm : ParamMap) (k : String)
    (hk : goodKey k) :
    strReplaceAll pm ('$' :: '(' :: (k.data ++ [')'])) =
      (interpolate pm ("$(" ++ k ++ ")") k).data := by
  have hm : strMatchAt ('$' :: '(' :: (k.data ++ [')'])) = some (k.data, []) := by
    show greedyFind [')'] (k.data ++ [')']) = some (k.data, [])
    exact greedyFind_one k.data (fun c hc => (hk c hc).2.2.2)
  rw [strReplaceAll_cons_some pm _ _ _ _ hm, strReplaceAll_nil]
  have h1 : String.mk ('$' :: '(' :: (k.data ++ [')'])) = "$(" ++ k ++ ")" := by
    have h2 : ("$(" ++ k ++ ")").data = '$' :: '(' :: (k.data ++ [')']) := by
      simp [String.data_append]
    rw [← h2]
  rw [h1]
  simp

/-- The literal pattern does not fire anywhere on a string-form placeholder:
the character after `$(` is not another opening parenthesis. -/
theorem litReplaceAll_str_placeholder (pm : ParamMap) (k : String)
    (hk : goodKey k) :
    litReplaceAll pm ('$' :: '(' :: (k.data ++ [')'])) =
      '$' :: '(' :: (k.data ++ [')']) := by
  have hthd : litMatchAt ('$' :: '(' :: (k.data ++ [')'])) = none := by
    cases hcase : k.data with
    | nil => exact litMatchAt_thd_ne ')' [] (by decide)
    | cons c t =>
      rw [List.cons_append]
      refine litMatchAt_thd_ne c (t ++ [')']) ?_
      have := hk c (by rw [hcase]; simp)
      exact this.2.1
  rw [litReplaceAll_cons_none pm _ _ hthd,
    litReplaceAll_cons_none pm '(' _ (litMatchAt_ne_dollar '(' _ (by decide)),
    litReplaceAll_append pm k.data [')'] (fun c hc => (hk c hc).1),
    litReplaceAll_cons_none pm ')' [] (litMatchAt_ne_dollar ')' [] (by decide)),
    litReplaceAll_nil]

/-- All-digit text contains no dollar character. -/
theorem no_dollar_of_digits (v : List Char) (h : ∀ c ∈ v, c.isDigit) :
    ∀ c ∈ v, c ≠ '$' := by
  intro c hc he
  have := h c hc
  rw [he] at this
  exact absurd this (by decide)

/-- `Yaml::from_str` on a nonempty all-digit text that fits in an `i64` is the
corresponding integer node. -/
theorem from_str_digits (v : String) (n : Int) (hne : v.data ≠ [])
    (hd : ∀ c ∈ v.data, c.isDigit) (hp : parseI64 v = some n) :
    Yaml.from_str v = Yaml.integer n := by
  have hnotin : ∀ c : Char, ¬ c.isDigit → c ∉ v.data := by
    intro c hc hmem
    exact hc (hd c hmem)
  have hx : ¬ (strStartsWith v "0x" ∧ (parseI64Radix 16 (String.mk (v.data.drop 2))).isSome) := by
    rintro ⟨hs, -⟩
    have hpre : ['0', 'x'] <+: v.data := List.isPrefixOf_iff_prefix.mp hs
    exact hnotin 'x' (by decide) (hpre.subset (by simp))
  have ho : ¬ (strStartsWith v "0o" ∧ (parseI64Radix 8 (String.mk (v.data.drop 2))).isSome) := by
    rintro ⟨hs, -⟩
    have hpre : ['0', 'o'] <+: v.data := List.isPrefixOf_iff_prefix.mp hs
    exact hnotin 'o' (by decide) (hpre.subset (by simp))
  have hplus : ¬ (strStartsWith v "+" ∧ (parseI64 (String.mk (v.data.drop 1))).isSome) := by
    rintro ⟨hs, -⟩
    have hpre : ['+'] <+: v.data := List.isPrefixOf_iff_prefix.mp hs
    exact hnotin '+' (by decide) (hpre.subset (by simp))
  have htilde : ¬ (v = "~" ∨ v = "null") := by
    rintro (h | h) <;> subst h
    · exact hnotin '~' (by decide) (by decide)
    · exact hnotin 'n' (by decide) (by decide)
  have htrue : v ≠ "true" := by
    intro h; subst h
    exact hnotin 't' (by decide) (by decide)
  have hfalse : v ≠ "false" := by
    intro h; subst h
    exact hnotin 'f' (by decide) (by decide)
  unfold Yaml.from_str
  rw [if_neg hx, if_neg ho, if_neg hplus, if_neg htilde, if_neg htrue,
    if_neg hfalse, hp]

/-! Behaviour of `process_string` on whole placeholder forms. -/

theorem process_string_undeclared (pm : ParamMap) (k : String)
    (hk : goodKey k) (hget : pmGet pm k = none) :
    process_string pm ("$(" ++ k ++ ")") = Except.ok none := by
  have hdata : ("$(" ++ k ++ ")").data = '$' :: '(' :: (k.data ++ [')']) := by
    simp [String.data_append]
  have hint : interpolate pm ("$(" ++ k ++ ")") k = "$(" ++ k ++ ")" := by
    unfold interpolate; rw [hget]
  unfold process_string
  simp only [hdata, litReplaceAll_str_placeholder pm k hk,
    strReplaceAll_str_placeholder pm k hk, hint]
  simp

theorem process_string_no_value (pm : ParamMap) (k : String) (p : Parameter)
    (hk : goodKey k) (hget : pmGet pm k = some p) (hval : p.value = none) :
    process_string pm ("$(" ++ k ++ ")") = Except.ok (some (.string "~")) := by
  have hdata : ("$(" ++ k ++ ")").data = '$' :: '(' :: (k.data ++ [')']) := by
    simp [String.data_append]
  have hint : interpolate pm ("$(" ++ k ++ ")") k = "~" := by
    simp [interpolate, hget, hval]
  unfold process_string
  simp only [hdata, litReplaceAll_str_placeholder pm k hk,
    strReplaceAll_str_placeholder pm k hk, hint]
  simp

theorem process_string_literal_digits (pm : ParamMap) (k v : String)
    (p : Parameter) (n : Int) (hk : goodKey k)
    (hget : pmGet pm k = some p) (hval : p.value = some v)
    (hne : v.data ≠ []) (hd : ∀ c ∈ v.data, c.isDigit)
    (hp : parseI64 v = some n) :
    process_string pm ("$((" ++ k ++ "))") = Except.ok (some (.integer n)) := by
  have hdata : ("$((" ++ k ++ "))").data =
      '$' :: '(' :: '(' :: (k.data ++ [')', ')']) := by
    simp [String.data_append]
  have hint : interpolate pm ("$((" ++ k ++ "))") k = v := by
    simp [interpolate, hget, hval]
  have hnod := no_dollar_of_digits v.data hd
  have hrepl_ne : v.data ≠ '$' :: '(' :: '(' :: (k.data ++ [')', ')']) := by
    intro he
    exact hnod '$' (by rw [he]; simp) rfl
  unfold process_string
  simp only [hdata, litReplaceAll_lit_placeholder pm k hk, hint,
    strReplaceAll_id pm v.data hnod]
  simp [hrepl_ne, show String.mk v.data = v from rfl,
    from_str_digits v n hne hd hp]

theorem process_string_string_form (pm : ParamMap) (pre k v : String)
    (p : Parameter) (hpre : ∀ c ∈ pre.data, c ≠ '$') (hk : goodKey k)
    (hget : pmGet pm k = some p) (hval : p.value = some v)
    (hvne : v ≠ "$(" ++ k ++ ")") :
    process_string pm (pre ++ "$(" ++ k ++ ")") =
      Except.ok (some (.string (pre ++ v))) := by
  have hdata : (pre ++ "$(" ++ k ++ ")").data =
      pre.data ++ ('$' :: '(' :: (k.data ++ [')'])) := by
    simp [String.data_append]
  have hint : interpolate pm ("$(" ++ k ++ ")") k = v := by
    simp [interpolate, hget, hval]
  have hlit : litReplaceAll pm (pre.data ++ ('$' :: '(' :: (k.data ++ [')']))) =
      pre.data ++ ('$' :: '(' :: (k.data ++ [')'])) := by
    rw [litReplaceAll_append pm pre.data _ hpre,
      litReplaceAll_str_placeholder pm k hk]
  have hstr : strReplaceAll pm (pre.data ++ ('$' :: '(' :: (k.data ++ [')']))) =
      pre.data ++ v.data := by
    rw [strReplaceAll_append pm pre.data _ hpre,
      strReplaceAll_str_placeholder pm k hk, hint]
  have hne : pre.data ++ v.data ≠ pre.data ++ ('$' :: '(' :: (k.data ++ [')'])) := by
    intro he
    rw [List.append_right_inj] at he
    apply hvne
    apply String.ext
    rw [he]
    simp [String.data_append]
  have hmk : String.mk (pre.data ++ v.data) = pre ++ v := by
    apply String.ext
    simp [String.data_append]
  unfold process_string
  simp only [hdata, hlit, hstr]
  simp [hne, hmk]

theorem process_string_greedy_pair (pm : ParamMap) (a b : String)
    (ha : goodKey a) (hb : goodKey b)
    (hget : pmGet pm (a ++ ")-$(" ++ b) = none) :
    process_string pm ("$(" ++ a ++ ")-$(" ++ b ++ ")") = Except.ok none := by
  have hdata : ("$(" ++ a ++ ")-$(" ++ b ++ ")").data =
      '$' :: '(' :: (a.data ++ ')' :: '-' :: '$' :: '(' :: (b.data ++ [')'])) := by
    simp [String.data_append]
  have hlit3 : litMatchAt
      ('$' :: '(' :: (a.data ++ ')' :: '-' :: '$' :: '(' :: (b.data ++ [')']))) =
      none := by
    cases hcase : a.data with
    | nil => exact litMatchAt_thd_ne ')' _ (by decide)
    | cons c t =>
      rw [List.cons_append]
      exact litMatchAt_thd_ne c _ ((ha c (by rw [hcase]; simp)).2.1)
  have hlit : litReplaceAll pm
      ('$' :: '(' :: (a.data ++ ')' :: '-' :: '$' :: '(' :: (b.data ++ [')']))) =
      '$' :: '(' :: (a.data ++ ')' :: '-' :: '$' :: '(' :: (b.data ++ [')'])) := by
    rw [litReplaceAll_cons_none pm _ _ hlit3,
      litReplaceAll_cons_none pm '(' _ (litMatchAt_ne_dollar '(' _ (by decide)),
      litReplaceAll_append pm a.data _ (fun c hc => (ha c hc).1),
      litReplaceAll_cons_none pm ')' _ (litMatchAt_ne_dollar ')' _ (by decide)),
      litReplaceAll_cons_none pm '-' _ (litMatchAt_ne_dollar '-' _ (by decide)),
      litReplaceAll_str_placeholder pm b hb]
  have hm : strMatchAt
      ('$' :: '(' :: (a.data ++ ')' :: '-' :: '$' :: '(' :: (b.data ++ [')']))) =
      some (a.data ++ ')' :: '-' :: '$' :: '(' :: b.data, []) := by
    show greedyFind [')']
      (a.data ++ ')' :: '-' :: '$' :: '(' :: (b.data ++ [')'])) = _
    have hsplit : a.data ++ ')' :: '-' :: '$' :: '(' :: (b.data ++ [')']) =
        (a.data ++ ')' :: '-' :: '$' :: '(' :: b.data) ++ [')'] := by
      simp
    rw [hsplit]
    apply greedyFind_one
    intro c hc
    simp only [List.mem_append, List.mem_cons] at hc
    rcases hc with h | h | h | h | h | h
    · exact (ha c h).2.2.2
    · rw [h]; decide
    · rw [h]; decide
    · rw [h]; decide
    · rw [h]; decide
    · exact (hb c h).2.2.2
  have hkey : String.mk (a.data ++ ')' :: '-' :: '$' :: '(' :: b.data) =
      a ++ ")-$(" ++ b := by
    apply String.ext
    simp [String.data_append]
  have hint : interpolate pm
      (String.mk ('$' :: '(' ::
        ((a.data ++ ')' :: '-' :: '$' :: '(' :: b.data) ++ [')'])))
      (a ++ ")-$(" ++ b) =
      String.mk ('$' :: '(' ::
        ((a.data ++ ')' :: '-' :: '$' :: '(' :: b.data) ++ [')'])) := by
    unfold interpolate; rw [hget]
  have hstr : strReplaceAll pm
      ('$' :: '(' :: (a.data ++ ')' :: '-' :: '$' :: '(' :: (b.data ++ [')']))) =
      '$' :: '(' :: (a.data ++ ')' :: '-' :: '$' :: '(' :: (b.data ++ [')'])) := by
    rw [strReplaceAll_cons_some pm _ _ _ _ hm, strReplaceAll_nil, hkey, hint]
    simp
  unfold process_string
  simp only [hdata, hlit, hstr]
  simp

/-! Concrete inputs used by counterexamples and witnesses. -/

/-- Parameter map resolving `A` to `"x"`. -/
def pmLit : ParamMap := [("A", ⟨none, none, "A", none, false, some "x"⟩)]

/-- Parameter map resolving `A` to `"x"` and `B` to `"y"`. -/
def pmPair : ParamMap :=
  [("A", ⟨none, none, "A", none, false, some "x"⟩),
   ("B", ⟨none, none, "B", none, false, some "y"⟩)]

/-- Parameter map declaring `A` with no resolved value. -/
def pmNoVal : ParamMap := [("A", ⟨none, none, "A", none, false, none⟩)]

/-- Parameter map resolving `PORT` to `"3000"`. -/
def pmPort : ParamMap := [("PORT", ⟨none, none, "PORT", none, false, some "3000"⟩)]

/-- Parameter map resolving `A` to `"7"`. -/
def pmSeven : ParamMap := [("A", ⟨none, none, "A", none, false, some "7"⟩)]

/-- A three-level parameter-file document `{A: {B: {C: "v"}, D: 5}}`. -/
def c8doc : Yaml :=
  .hash [(.string "A",
    .hash [(.string "B", .hash [(.string "C", .string "v")]),
           (.string "D", .integer 5)])]

/-- C1, counterexample. On `"$((A)) $(A)"` with `A` resolved to `"x"`, the
literal pass rewrites the text to `"x $(A)"` — a change — after which the
claim requires the string pattern not to be applied; the code applies the
string pattern to the result anyway and produces `"x x"`. -/
theorem c1_counterexample :
    litReplaceAll pmLit "$((A)) $(A)".data = "x $(A)".data ∧
    process_string pmLit "$((A)) $(A)" = Except.ok (some (.string "x x")) :=
  ⟨rfl, rfl⟩

/-- C1 (amended): the literal pattern is applied first to the whole node text
and the string pattern is then always applied to the literal pass's result,
even when the literal pass changed the text; when both passes changed the
text the node becomes a string of the doubly substituted text, and the typed
re-parse happens only when the literal pass changed the text and the string
pass did not change it further. -/
theorem c1_amended_matching_rule (pm : ParamMap) (s : String) :
    (litReplaceAll pm s.data ≠ s.data →
      strReplaceAll pm (litReplaceAll pm s.data) ≠ litReplaceAll pm s.data →
      process_string pm s = Except.ok (some (.string
        (String.mk (strReplaceAll pm (litReplaceAll pm s.data)))))) ∧
    (litReplaceAll pm s.data ≠ s.data →
      strReplaceAll pm (litReplaceAll pm s.data) = litReplaceAll pm s.data →
      process_string pm s = Except.ok (some (Yaml.from_str
        (String.mk (litReplaceAll pm s.data))))) := by
  constructor
  · intro h1 h2
    unfold process_string
    simp only []
    rw [if_neg h1, if_neg h2]
  · intro h1 h2
    unfold process_string
    simp only []
    rw [if_neg h1, if_pos h2, h2]

/-- C1, witness for the amended rule at the counterexample input. -/
theorem c1_witness :
    process_string pmLit "$((A)) $(A)" = Except.ok (some (.string
      (String.mk (strReplaceAll pmLit (litReplaceAll pmLit "$((A)) $(A)".data))))) :=
  (c1_amended_matching_rule pmLit "$((A)) $(A)").1 (by decide) (by decide)

/-- C2. A node whose entire text is the literal form `$((NAME))`, where the
parameter's resolved value is a nonempty digit string within the 64-bit
signed range, becomes the bare integer node of that value; a node of the form
`prefix-$(NAME)` (any dollar-free prefix) stays a string node with the value
substituted in place. -/
theorem c2_literal_vs_string_substitution :
    (∀ (pm : ParamMap) (k v : String) (p : Parameter) (n : Int),
      goodKey k → pmGet pm k = some p → p.value = some v →
      v.data ≠ [] → (∀ c ∈ v.data, c.isDigit) → parseI64 v = some n →
      process_string pm ("$((" ++ k ++ "))") = Except.ok (some (.integer n))) ∧
    (∀ (pm : ParamMap) (pre k v : String) (p : Parameter),
      (∀ c ∈ pre.data, c ≠ '$') → goodKey k →
      pmGet pm k = some p → p.value = some v → v ≠ "$(" ++ k ++ ")" →
      process_string pm (pre ++ "$(" ++ k ++ ")") =
        Except.ok (some (.string (pre ++ v)))) :=
  ⟨fun pm k v p n hk hget hval hne hd hp =>
      process_string_literal_digits pm k v p n hk hget hval hne hd hp,
   fun pm pre k v p hpre hk hget hval hvne =>
      process_string_string_form pm pre k v p hpre hk hget hval hvne⟩

/-- C2, witness: `PORT` resolved to `"3000"` turns `$((PORT))` into the
integer node `3000` and `prefix-$(PORT)` into the string `prefix-3000`. -/
theorem c2_witness :
    process_string pmPort "$((PORT))" = Except.ok (some (.integer 3000)) ∧
    process_string pmPort "prefix-$(PORT)" =
      Except.ok (some (.string "prefix-3000")) := by
  constructor
  · exact c2_literal_vs_string_substitution.1 pmPort "PORT" "3000"
      ⟨none, none, "PORT", none, false, some "3000"⟩ 3000
      (by decide) rfl rfl (by decide) (by decide) (by decide)
  · exact c2_literal_vs_string_substitution.2 pmPort "prefix-" "PORT" "3000"
      ⟨none, none, "PORT", none, false, some "3000"⟩
      (by decide) (by decide) rfl rfl (by decide)

/-- C3, counterexample. Both `A` and `B` are declared and resolved, yet on
`"$(A)-$(B)"` the greedy string pattern produces the single capture
`A)-$(B`, whose lookup fails, so the text is left unchanged (`Ok(None)`)
instead of the placeholders being substituted independently to `"x-y"`. -/
theorem c3_counterexample :
    pmGet pmPair "A" = some ⟨none, none, "A", none, false, some "x"⟩ ∧
    pmGet pmPair "B" = some ⟨none, none, "B", none, false, some "y"⟩ ∧
    process_string pmPair "$(A)-$(B)" = Except.ok none :=
  ⟨rfl, rfl, rfl⟩

/-- C3 (amended): matching is leftmost but greedy, so on a single line the one
string-pattern match of `$(A)-$(B)` spans from the first `$(` to the last `)`
and captures `A)-$(B` as the parameter name; when that combined name is not
declared, the whole text is left verbatim — the placeholders are not
substituted independently. -/
theorem c3_amended_greedy (pm : ParamMap) (a b : String)
    (ha : goodKey a) (hb : goodKey b)
    (hget : pmGet pm (a ++ ")-$(" ++ b) = none) :
    process_string pm ("$(" ++ a ++ ")-$(" ++ b ++ ")") = Except.ok none :=
  process_string_greedy_pair pm a b ha hb hget

/-- C3, witness for the amended greedy rule at the counterexample input. -/
theorem c3_witness :
    process_string pmPair ("$(" ++ "A" ++ ")-$(" ++ "B" ++ ")") = Except.ok none :=
  c3_amended_greedy pmPair "A" "B" (by decide) (by decide) rfl

/-- C4. A placeholder whose name is not declared in the parameter map is left
verbatim (no replacement node is produced); a placeholder whose parameter is
declared but carries no resolved value is substituted by the sentinel `~`. -/
theorem c4_unresolved_passthrough :
    (∀ (pm : ParamMap) (k : String), goodKey k → pmGet pm k = none →
      process_string pm ("$(" ++ k ++ ")") = Except.ok none) ∧
    (∀ (pm : ParamMap) (k : String) (p : Parameter), goodKey k →
      pmGet pm k = some p → p.value = none →
      process_string pm ("$(" ++ k ++ ")") = Except.ok (some (.string "~"))) :=
  ⟨fun pm k hk hget => process_string_undeclared pm k hk hget,
   fun pm k p hk hget hval => process_string_no_value pm k p hk hget hval⟩

/-- C4, witness: an undeclared `B` passes through verbatim; a declared `A`
with no value substitutes to `~`. -/
theorem c4_witness :
    process_string pmNoVal ("$(" ++ "B" ++ ")") = Except.ok none ∧
    process_string pmNoVal ("$(" ++ "A" ++ ")") =
      Except.ok (some (.string "~")) :=
  ⟨c4_unresolved_passthrough.1 pmNoVal "B" (by decide) rfl,
   c4_unresolved_passthrough.2 pmNoVal "A" ⟨none, none, "A", none, false, none⟩
     (by decide) rfl rfl⟩

/-- C6. A `Base64`-typed parameter supplied as `Plain` is Base64-encoded; the
same parameter supplied as `Encoded` is stored unchanged; for any other
declared type (or no type) the raw string is used unchanged regardless of the
tag. `Plain "foo"` resolves to `"Zm9v"` and `Encoded "Zm9v"` stays `"Zm9v"`. -/
theorem c6_base64_idempotence :
    (∀ v : String,
      maybe_base64_encode (some ParameterType.base64) (.plain v) = base64_encode v ∧
      maybe_base64_encode (some ParameterType.base64) (.encoded v) = v) ∧
    (∀ (pt : Option ParameterType) (v : String), pt ≠ some ParameterType.base64 →
      maybe_base64_encode pt (.plain v) = v ∧
      maybe_base64_encode pt (.encoded v) = v) ∧
    maybe_base64_encode (some ParameterType.base64) (.plain "foo") = "Zm9v" ∧
    maybe_base64_encode (some ParameterType.base64) (.encoded "Zm9v") = "Zm9v" := by
  refine ⟨fun v => ?_, fun pt v hpt => ?_, rfl, rfl⟩
  · constructor <;> simp [maybe_base64_encode]
  · constructor <;> · unfold maybe_base64_encode; rw [if_pos (Or.inr hpt)]

/-- C6, witness for the non-Base64 clause at type `int`. -/
theorem c6_witness :
    maybe_base64_encode (some ParameterType.int) (.plain "foo") = "foo" ∧
    maybe_base64_encode (some ParameterType.int) (.encoded "Zm9v") = "Zm9v" :=
  ⟨(c6_base64_idempotence.2.1 (some ParameterType.int) "foo" (by decide)).1,
   (c6_base64_idempotence.2.1 (some ParameterType.int) "Zm9v" (by decide)).2⟩

/-- C8, counterexample. On `{A: {B: {C: "v"}, D: 5}}` the parameter-file
loader produces the single entry `A_BC ↦ "v"`: the separator between the
second and third level is lost, and the integer leaf `D` inside the nested
mapping is skipped, so neither `A_B_C` nor `A_D` (which the claim requires)
is present. -/
theorem c8_counterexample :
    parse_yaml c8doc "" = some [("A_BC", ParameterValue.plain "v")] ∧
    pvGet [("A_BC", ParameterValue.plain "v")] "A_B_C" = none ∧
    pvGet [("A_BC", ParameterValue.plain "v")] "A_D" = none :=
  ⟨rfl, rfl, rfl⟩

/-- C8 (amended): boolean, integer, float and string leaves are accepted (as
their string forms, tagged `Plain`) when they are direct entries of a hash
parsed as a document — the top level, and again at depth three via the
recursive call; inside a first-level nested mapping only string and hash
values are kept, other leaves (e.g. integers at depth two) are silently
skipped, as are arrays, nulls and aliases everywhere. The `_` separator is
inserted only when descending into a nested mapping; the recursive document
call concatenates its keys directly, so a depth-three leaf `A.B.C` gets the
key `A_BC`. -/
theorem c8_amended_parameter_file :
    (∀ (pk k s : String),
      parse_yaml (.hash [(.string k, .string s)]) pk =
        some [(pk ++ k, ParameterValue.plain s)]) ∧
    (∀ (pk k : String) (i : Int),
      parse_yaml (.hash [(.string k, .integer i)]) pk =
        some [(pk ++ k, ParameterValue.plain (toString i))]) ∧
    (∀ (pk k r : String),
      parse_yaml (.hash [(.string k, .real r)]) pk =
        some [(pk ++ k, ParameterValue.plain r)]) ∧
    (∀ (pk k : String) (b : Bool),
      parse_yaml (.hash [(.string k, .boolean b)]) pk =
        some [(pk ++ k, ParameterValue.plain (toString b))]) ∧
    (∀ (pk k k2 s : String),
      parse_yaml (.hash [(.string k, .hash [(.string k2, .string s)])]) pk =
        some [(pk ++ k ++ "_" ++ k2, ParameterValue.plain s)]) ∧
    (∀ (pk k k2 : String) (i : Int),
      parse_yaml (.hash [(.string k, .hash [(.string k2, .integer i)])]) pk =
        some []) ∧
    (∀ (pk k k2 k3 s : String),
      parse_yaml
        (.hash [(.string k, .hash [(.string k2, .hash [(.string k3, .string s)])])])
        pk = some [(pk ++ k ++ "_" ++ k2 ++ k3, ParameterValue.plain s)]) ∧
    (∀ (pk k : String) (l : List Yaml),
      parse_yaml (.hash [(.string k, .array l)]) pk = some []) ∧
    (∀ (pk k : String), parse_yaml (.hash [(.string k, .null)]) pk = some []) ∧
    (∀ (pk k : String) (a : Nat),
      parse_yaml (.hash [(.string k, .alias a)]) pk = some []) :=
  ⟨fun _ _ _ => rfl, fun _ _ _ => rfl, fun _ _ _ => rfl, fun _ _ _ => rfl,
   fun _ _ _ _ => rfl, fun _ _ _ _ => rfl, fun _ _ _ _ _ => rfl,
   fun _ _ _ => rfl, fun _ _ => rfl, fun _ _ _ => rfl⟩

/-! Behaviour of the object loop and serialization of `Template::process`. -/

/-- With a total emitter the emission loop always succeeds. -/
theorem dumpLoop_total (emit : Yaml → Except String String)
    (htotal : ∀ y, ∃ out, emit y = Except.ok out) :
    ∀ (l : List Yaml) (last i : Nat), ∃ s, dumpLoop emit last i l = Except.ok s := by
  intro l
  induction l with
  | nil => intro last i; exact ⟨"", rfl⟩
  | cons y t ih =>
    intro last i
    obtain ⟨out, hout⟩ := htotal y
    obtain ⟨s, hs⟩ := ih last (i + 1)
    refine ⟨out ++ (if i ≠ last then "\n" else "") ++ s, ?_⟩
    rw [dumpLoop, hout, hs]

/-- With the trivial emitter, serialization either panics on the empty list or
succeeds; it never produces an error. -/
theorem dump_okEmit (l : List Yaml) :
    dump (fun _ => Except.ok "") l = none ∨
      ∃ s, dump (fun _ => Except.ok "") l = some (Except.ok s) := by
  unfold dump
  cases hu : usizeSub l.length 1 with
  | none => exact Or.inl rfl
  | some last =>
    obtain ⟨s, hs⟩ := dumpLoop_total (fun _ => Except.ok "") (fun y => ⟨"", rfl⟩) l last 0
    exact Or.inr ⟨s, by dsimp only; rw [hs]⟩

/-- With no secret set configured the object loop never fails and encodes
nothing: it only interpolates each object in place. -/
theorem processLoop_none (pm : ParamMap) :
    ∀ objs : List Yaml, ∃ objs', processLoop pm none objs = Except.ok (objs', 0) ∧
      objs'.length = objs.length := by
  intro objs
  induction objs with
  | nil => exact ⟨[], rfl, rfl⟩
  | cons y t ih =>
    obtain ⟨objs', hloop, hlen⟩ := ih
    refine ⟨(process_yaml pm y).1 :: objs', ?_, by simp [hlen]⟩
    rw [processLoop, hloop]
    rfl

/-- C7, counterexample. One declared identity `{webapp, default}` and a
document with two matching `Secret` objects: each object individually matches
and has its data encoded (first conjunct — so every declared identity is
matched by at least one resource object), yet the run fails with the
completeness error because the per-object encode count (2) differs from the
set's cardinality (1). -/
theorem c7_counterexample :
    (maybe_base64_encode_secret [⟨"webapp", "default"⟩]
      (.hash [(.string "kind", .string "Secret"),
              (.string "metadata", .hash [(.string "name", .string "webapp")]),
              (.string "data", .hash [(.string "k", .string "v")])])).2 =
        Except.ok true ∧
    Template.process (fun _ => Except.ok "")
      ⟨[.hash [(.string "kind", .string "Secret"),
               (.string "metadata", .hash [(.string "name", .string "webapp")]),
               (.string "data", .hash [(.string "k", .string "v")])],
        .hash [(.string "kind", .string "Secret"),
               (.string "metadata", .hash [(.string "name", .string "webapp")]),
               (.string "data", .hash [(.string "k", .string "v")])]],
        [], some [⟨"webapp", "default"⟩]⟩ =
      some (Except.error "Not all secrets specified were found.") :=
  ⟨rfl, rfl⟩

/-- C7 (amended): when the object loop completes, the run fails with the
completeness error exactly when the number of objects whose data was encoded
(counted once per object, not per distinct identity) differs from the
configured set's cardinality. An identity matched by two objects, or only by
objects lacking a `data` field, therefore fails the check even though every
member is matched by at least one resource object. -/
theorem c7_amended_completeness (pm : ParamMap) (S : List Secret)
    (objs objs' : List Yaml) (cnt : Nat)
    (hloop : processLoop pm (some S) objs = Except.ok (objs', cnt)) :
    (Template.process (fun _ => Except.ok "") ⟨objs, pm, some S⟩ =
      some (Except.error "Not all secrets specified were found.")) ↔
      cnt ≠ S.length := by
  unfold Template.process
  rw [hloop]
  dsimp only
  by_cases h : cnt = S.length
  · rw [if_neg (by simpa using h)]
    rcases dump_okEmit objs' with hd | ⟨s, hd⟩ <;> rw [hd] <;> simp [h]
  · rw [if_pos h]
    simp [h]

/-- C7, witness for the amended completeness rule: a single matching object
satisfies a single declared identity, and the run does not fail. -/
theorem c7_witness :
    (Template.process (fun _ => Except.ok "")
      ⟨[.hash [(.string "kind", .string "Secret"),
               (.string "metadata", .hash [(.string "name", .string "webapp")]),
               (.string "data", .hash [(.string "k", .string "v")])]],
        [], some [⟨"webapp", "default"⟩]⟩ =
      some (Except.error "Not all secrets specified were found.")) ↔
      (1 ≠ [(⟨"webapp", "default"⟩ : Secret)].length) :=
  c7_amended_completeness [] [⟨"webapp", "default"⟩]
    [.hash [(.string "kind", .string "Secret"),
            (.string "metadata", .hash [(.string "name", .string "webapp")]),
            (.string "data", .hash [(.string "k", .string "v")])]]
    [.hash [(.string "kind", .string "Secret"),
            (.string "metadata", .hash [(.string "name", .string "webapp")]),
            (.string "data", .hash [(.string "k", .string "dg==")])]]
    1 rfl

/-- C9. `Template::process` discards the result of `process_yaml` for each
top-level object: a template whose single object is a string scalar is
serialized from the original node, whatever the interpolation returned; and
with no secret set configured and a total emitter, `process` always returns
successfully — no interpolation outcome can fail it. -/
theorem c9_process_discards_interpolation :
    (∀ (emit : Yaml → Except String String) (pm : ParamMap) (s : String),
      Template.process emit ⟨[.string s], pm, none⟩ = dump emit [.string s]) ∧
    (∀ (emit : Yaml → Except String String) (t : Template),
      (∀ y, ∃ out, emit y = Except.ok out) → t.secrets = none →
      t.objects ≠ [] →
      ∃ out, Template.process emit t = some (Except.ok out)) := by
  constructor
  · intro emit pm s
    rfl
  · intro emit t htotal hsec hne
    obtain ⟨objs', hloop, hlen⟩ := processLoop_none t.param_map t.objects
    unfold Template.process
    rw [hsec, hloop]
    dsimp only
    have hlen1 : 1 ≤ objs'.length := by
      rw [hlen]
      exact List.length_pos.mpr hne
    unfold dump usizeSub
    rw [if_pos hlen1]
    obtain ⟨s, hs⟩ := dumpLoop_total emit htotal objs' (objs'.length - 1) 0
    exact ⟨s, by dsimp only; rw [hs]⟩

/-- C9, witness: the object `"$((A))"` would be replaced by the integer node
`7` by `process_string`, but as a top-level object the replacement is
discarded and the original string node is serialized; processing succeeds. -/
theorem c9_witness :
    process_string pmSeven "$((A))" = Except.ok (some (.integer 7)) ∧
    Template.process (fun _ => Except.ok "out")
        ⟨[.string "$((A))"], pmSeven, none⟩ =
      dump (fun _ => Except.ok "out") [.string "$((A))"] ∧
    (∃ out, Template.process (fun _ => Except.ok "out")
        ⟨[.string "$((A))"], pmSeven, none⟩ = some (Except.ok out)) :=
  ⟨rfl,
   c9_process_discards_interpolation.1 (fun _ => Except.ok "out") pmSeven "$((A))",
   c9_process_discards_interpolation.2 (fun _ => Except.ok "out")
     ⟨[.string "$((A))"], pmSeven, none⟩ (fun y => ⟨"out", rfl⟩) rfl (by simp)⟩

/-- C10. `Template::new` accepts an `objects` key holding an empty sequence,
and `process` on such a template reaches `dump`, whose `objects.len() - 1`
underflows on the unsigned length zero (modelled as the panic value `none`) —
it does not return normally; the subtraction is well defined exactly under
the precondition that the objects sequence is nonempty. -/
theorem c10_empty_objects_panics :
    (∀ (emit : Yaml → Except String String) (pm : ParamMap),
      Template.process emit ⟨[], pm, none⟩ = none ∧
      Template.process emit ⟨[], pm, some []⟩ = none) ∧
    (∀ (uv : ParameterValues) (secrets : Option (List Secret)),
      Template.new
        [.hash [(.string "objects", .array []),
                (.string "parameters", .array [])]] uv secrets =
        Except.ok ⟨[], [], secrets⟩) ∧
    (∀ objs : List Yaml, objs ≠ [] → (usizeSub objs.length 1).isSome) := by
  refine ⟨fun emit pm => ⟨rfl, rfl⟩, fun uv secrets => rfl, fun objs hne => ?_⟩
  have h1 : 1 ≤ objs.length := List.length_pos.mpr hne
  unfold usizeSub
  rw [if_pos h1]
  rfl

/-- C10, witness at a concrete template: construction accepts the empty
objects sequence, processing panics on it, and the subtraction is defined on
a nonempty sequence. -/
theorem c10_witness :
    Template.process (fun _ => Except.ok "out") ⟨[], [], none⟩ = none ∧
    Template.new
      [.hash [(.string "objects", .array []), (.string "parameters", .array [])]]
      [] none = Except.ok ⟨[], [], none⟩ ∧
    (usizeSub [Yaml.null].length 1).isSome :=
  ⟨(c10_empty_objects_panics.1 (fun _ => Except.ok "out") []).1,
   c10_empty_objects_panics.2.1 [] none,
   c10_empty_objects_panics.2.2 [Yaml.null] (by simp)⟩

/-! Characterization of `Parameter::new` and the construction loop of
`Template::new`. -/

theorem parameter_new_spec (y : Yaml) (uv : ParameterValues) (n : String)
    (pt : Option ParameterType)
    (hname : yIndexS y "name" = .string n)
    (htype : extract_parameter_type y = Except.ok pt) :
    ((∃ e, Parameter.new y uv = Except.error e) ↔
      (requiredOf y = true ∧ pvGet uv n = none ∧ inline_value y = none)) ∧
    (requiredOf y = true → pvGet uv n = none → inline_value y = none →
      Parameter.new y uv = Except.error
        ("Parameter " ++ ((displayNameOf y).getD n) ++
          " required and must be " ++ typePhrase pt)) := by
  refine ⟨⟨?_, ?_⟩, ?_⟩
  · rintro ⟨e, he⟩
    cases hu : pvGet uv n with
    | some u => simp [Parameter.new, hname, htype, hu] at he
    | none =>
      cases hi : inline_value y with
      | some v => simp [Parameter.new, hname, htype, hu, hi] at he
      | none =>
        cases hr : requiredOf y with
        | false => simp [Parameter.new, hname, htype, hu, hi, hr] at he
        | true => exact ⟨rfl, rfl, rfl⟩
  · rintro ⟨hr, hu, hi⟩
    refine ⟨"Parameter " ++ ((displayNameOf y).getD n) ++
      " required and must be " ++ typePhrase pt, ?_⟩
    simp [Parameter.new, hname, htype, hu, hi, hr]
  · intro hr hu hi
    simp [Parameter.new, hname, htype, hu, hi, hr]

theorem build_param_map_error_iff (uv : ParameterValues) :
    ∀ (specs : List Yaml) (acc : ParamMap),
      (∃ e, build_param_map uv specs acc = Except.error e) ↔
        ∃ spec ∈ specs, ∃ e, Parameter.new spec uv = Except.error e := by
  intro specs
  induction specs with
  | nil => intro acc; simp [build_param_map]
  | cons spec t ih =>
    intro acc
    cases hp : Parameter.new spec uv with
    | error e =>
      have hstep : build_param_map uv (spec :: t) acc = Except.error e := by
        rw [build_param_map, hp]
      rw [hstep]
      constructor
      · intro _; exact ⟨spec, by simp, e, hp⟩
      · intro _; exact ⟨e, rfl⟩
    | ok p =>
      have hstep : build_param_map uv (spec :: t) acc =
          build_param_map uv t (pmInsert acc p.name p) := by
        rw [build_param_map, hp]
      rw [hstep, ih]
      constructor
      · rintro ⟨s, hs, he⟩
        exact ⟨s, by simp [hs], he⟩
      · rintro ⟨s, hs, he⟩
        rcases List.mem_cons.mp hs with h | h
        · subst h
          obtain ⟨e, he⟩ := he
          rw [hp] at he
          exact absurd he (by simp)
        · exact ⟨s, h, he⟩

theorem template_new_error_iff (doc : Yaml) (uv : ParameterValues)
    (secrets : Option (List Secret)) (objs specs : List Yaml)
    (hobjs : (yIndexS doc "objects").as_vec = some objs)
    (hparams : (yIndexS doc "parameters").as_vec = some specs) :
    (∃ e, Template.new [doc] uv secrets = Except.error e) ↔
      ∃ spec ∈ specs, ∃ e, Parameter.new spec uv = Except.error e := by
  rw [← build_param_map_error_iff uv specs []]
  unfold Template.new
  dsimp only
  rw [hobjs, hparams]
  dsimp only
  cases hb : build_param_map uv specs [] with
  | error e => simp [hb, Except.map]
  | ok pm => simp [hb, Except.map]

/-- C5. Given a declaration whose `name` is a string and whose
`parameterType` extraction succeeds, `Parameter::new` fails exactly when
`required` resolves to true, no caller-supplied value exists for the name,
and there is no inline `value` default (a boolean, integer or string `value`
field); the error identifies the parameter by `displayName` falling back to
`name` and names the expected type (the catch-all phrase when no type was
declared). At the template level, construction fails exactly when some
declaration in `parameters` is in that situation. -/
theorem c5_required_enforcement :
    (∀ (y : Yaml) (uv : ParameterValues) (n : String) (pt : Option ParameterType),
      yIndexS y "name" = .string n →
      extract_parameter_type y = Except.ok pt →
      (((∃ e, Parameter.new y uv = Except.error e) ↔
        (requiredOf y = true ∧ pvGet uv n = none ∧ inline_value y = none)) ∧
       (requiredOf y = true → pvGet uv n = none → inline_value y = none →
        Parameter.new y uv = Except.error
          ("Parameter " ++ ((displayNameOf y).getD n) ++
            " required and must be " ++ typePhrase pt)))) ∧
    (∀ (doc : Yaml) (uv : ParameterValues) (secrets : Option (List Secret))
      (objs specs : List Yaml),
      (yIndexS doc "objects").as_vec = some objs →
      (yIndexS doc "parameters").as_vec = some specs →
      (∀ spec ∈ specs, ∃ n pt, yIndexS spec "name" = Yaml.string n ∧
        extract_parameter_type spec = Except.ok pt) →
      ((∃ e, Template.new [doc] uv secrets = Except.error e) ↔
        ∃ spec ∈ specs, requiredOf spec = true ∧
          pvGet uv ((yIndexS spec "name").as_str.getD "") = none ∧
          inline_value spec = none)) := by
  constructor
  · intro y uv n pt hname htype
    exact parameter_new_spec y uv n pt hname htype
  · intro doc uv secrets objs specs hobjs hparams hwf
    rw [template_new_error_iff doc uv secrets objs specs hobjs hparams]
    constructor
    · rintro ⟨spec, hs, he⟩
      obtain ⟨n, pt, hname, htype⟩ := hwf spec hs
      have hc := (parameter_new_spec spec uv n pt hname htype).1.mp he
      refine ⟨spec, hs, ?_⟩
      rw [hname]
      simpa [Yaml.as_str] using hc
    · rintro ⟨spec, hs, hconds⟩
      obtain ⟨n, pt, hname, htype⟩ := hwf spec hs
      rw [hname] at hconds
      simp only [Yaml.as_str, Option.getD_some] at hconds
      exact ⟨spec, hs, (parameter_new_spec spec uv n pt hname htype).1.mpr hconds⟩

/-- C5, witness: a required `P` with no supplied value and no inline default
fails with the expected message; supplying a value for `P` removes the
failure. -/
theorem c5_witness :
    Parameter.new
      (.hash [(.string "name", .string "P"), (.string "required", .boolean true)])
      [] =
      Except.error "Parameter P required and must be base64, bool, int, or string" ∧
    ¬ (∃ e, Parameter.new
      (.hash [(.string "name", .string "P"), (.string "required", .boolean true)])
      [("P", ParameterValue.plain "v")] = Except.error e) := by
  constructor
  · exact (c5_required_enforcement.1
      (.hash [(.string "name", .string "P"), (.string "required", .boolean true)])
      [] "P" none rfl rfl).2 rfl rfl rfl
  · intro hex
    have hc := ((c5_required_enforcement.1
      (.hash [(.string "name", .string "P"), (.string "required", .boolean true)])
      [("P", ParameterValue.plain "v")] "P" none rfl rfl).1).mp hex
    exact absurd hc.2.1 (by decide)

end Ktmpl
